import Mathlib

/-!
# NetCanv matchmaker / relay networking core — verification development

A shallow embedding of the matchmaker service
(`netcanv-ws-matchmaker/src/main.rs`) and of the client-side socket layer
(`src/net/socket/socket.rs`), together with proofs about the registry
operations, the relay fan-out, the disconnect cleanup and the send path.

Modelling conventions:
* `SocketAddr` is modelled as `Nat` (addresses are only compared for equality).
* An `Arc<Destination>` is modelled by a `Destination` record carrying a
  `connId`, the identity of the allocation; `Arc::ptr_eq` becomes equality of
  `connId`s.  A `Weak<Destination>` is modelled by the same record; upgrading
  succeeds exactly when the `connId` is in the ambient list of live
  connections.
* `DashMap` is modelled as an association list with insert-overwrite and
  erase helpers.
* Sending a packet is modelled as an effect `(connId of recipient, packet)`
  appended to the list of effects an operation produces.
* The random number generator of `find_free_room_id` is modelled as the
  sequence `rng : Nat → Nat` of values it produces;
  `WyRand::generate_range(0..=MAX_ROOM_ID)` guarantees every value is at most
  `MAX_ROOM_ID`, which appears as a hypothesis where needed.
-/

namespace NetCanv

/-- Rust: `const MAX_ROOM_ID: u32 = 9999;`. -/
def MAX_ROOM_ID : Nat := 9999

/-- The wire protocol packets of `netcanv_protocol::matchmaker` that the
matchmaker handles or produces. -/
inductive Packet where
  | host
  | getHost (roomId : Nat)
  | requestRelay (hostAddr : Option Nat)
  | relayPayload (target : Option Nat) (data : List Nat)
  | roomId (id : Nat)
  | clientAddress (addr : Nat)
  | hostAddress (addr : Nat)
  | relayed (sender : Nat) (data : List Nat)
  | disconnected (addr : Nat)
  | error (message : String)
deriving DecidableEq, Repr

/-- One live connection's outbound path (`struct Destination`): the identity
of the `Arc` allocation plus the remote address. -/
structure Destination where
  connId : Nat
  peerAddr : Nat
deriving DecidableEq, Repr

/-- Rust `struct Room { host, clients, id }`; `clients` holds the (weak)
references pushed by `add_relay`. -/
structure Room where
  host : Destination
  clients : List Destination
  id : Nat
deriving DecidableEq, Repr

/-- Association-list lookup, the model of `DashMap::get`. -/
def alookup {β : Type} (m : List (Nat × β)) (k : Nat) : Option β :=
  match m with
  | [] => none
  | (k', v) :: rest => if k' = k then some v else alookup rest k

/-- Remove every binding of `k`, the model of `DashMap::remove`'s effect. -/
def mapErase {β : Type} (m : List (Nat × β)) (k : Nat) : List (Nat × β) :=
  match m with
  | [] => []
  | (k', v) :: rest => if k' = k then mapErase rest k else (k', v) :: mapErase rest k

/-- Insert-overwrite, the model of `DashMap::insert`. -/
def mapInsert {β : Type} (m : List (Nat × β)) (k : Nat) (v : β) : List (Nat × β) :=
  (k, v) :: mapErase m k

/-- Rust `struct Matchmaker { rooms, host_rooms, relay_clients }`. -/
structure Matchmaker where
  rooms : List (Nat × Room)
  host_rooms : List (Nat × Nat)
  relay_clients : List (Nat × Nat)
deriving DecidableEq, Repr

/-- Rust `Matchmaker::new()`. -/
def Matchmaker.new : Matchmaker := ⟨[], [], []⟩

/-- Loop body of `find_free_room_id`: `i` is the index into the stream of
generated random values, `fuel` the number of iterations left. -/
def find_free_room_id_go (rooms : List (Nat × Room)) (rng : Nat → Nat) :
    Nat → Nat → Option Nat
  | _, 0 => none
  | i, fuel + 1 =>
    let id := rng i
    if (alookup rooms id).isSome then find_free_room_id_go rooms rng (i + 1) fuel
    else some id

/-- Rust `fn find_free_room_id`: `for _ in 1..50` draws a fresh random id in
`0..=MAX_ROOM_ID` each iteration (49 iterations) and returns the first id not
present in `rooms`; `None` if the attempt budget is exhausted. -/
def find_free_room_id (rooms : List (Nat × Room)) (rng : Nat → Nat) : Option Nat :=
  find_free_room_id_go rooms rng 0 49

/-- Rust `fn send_packet(dest, packet)` modelled as the effect it produces. -/
def send_packet (dest : Destination) (packet : Packet) : Nat × Packet :=
  (dest.connId, packet)

/-- Rust `fn send_error(dest, error)`. -/
def send_error (dest : Destination) (message : String) : Nat × Packet :=
  send_packet dest (Packet.error message)

/-- Rust `fn host`: allocate a free room id, insert the room into `rooms` and the
host address into `host_rooms`, reply `RoomId`; on exhaustion reply an error. -/
def host (mm : Matchmaker) (dest : Destination) (rng : Nat → Nat) :
    Matchmaker × List (Nat × Packet) :=
  match find_free_room_id mm.rooms rng with
  | some room_id =>
    let room : Room := { host := dest, clients := [], id := room_id }
    ({ mm with
        rooms := mapInsert mm.rooms room_id room,
        host_rooms := mapInsert mm.host_rooms dest.peerAddr room_id },
     [send_packet dest (Packet.roomId room_id)])
  | none => (mm, [send_error dest "Could not find any more free rooms. Try again"])

/-- Rust `fn join`: look the room up; on miss send an error to the requester, on
hit send `ClientAddress` to the host and `HostAddress` to the requester. -/
def join (mm : Matchmaker) (dest : Destination) (room_id : Nat) : List (Nat × Packet) :=
  match alookup mm.rooms room_id with
  | none =>
    [send_error dest
      "No room found with the given ID. Check whether you spelled the ID correctly"]
  | some room =>
    [send_packet room.host (Packet.clientAddress dest.peerAddr),
     send_packet dest (Packet.hostAddress room.host.peerAddr)]

/-- Rust `fn add_relay`: default the host address to the requester's own, resolve
it through `host_rooms`, record the requester in `relay_clients`, push a weak
reference onto the room's client list and acknowledge with `Relayed`.

The source calls `.unwrap()` on `mm.rooms.get_mut(&room_id)`; the `none`
result models the panic of that unwrap. -/
def add_relay (mm : Matchmaker) (dest : Destination) (host_addr? : Option Nat) :
    Option (Matchmaker × List (Nat × Packet)) :=
  let peer_addr := dest.peerAddr
  let host_addr := host_addr?.getD peer_addr
  match alookup mm.host_rooms host_addr with
  | none => some (mm, [send_error dest "The host seems to have disconnected"])
  | some room_id =>
    let relay_clients' := mapInsert mm.relay_clients peer_addr room_id
    match alookup mm.rooms room_id with
    | none => none
    | some room =>
      let room' := { room with clients := room.clients ++ [dest] }
      some ({ mm with
                rooms := mapInsert mm.rooms room_id room',
                relay_clients := relay_clients' },
            [send_packet dest (Packet.relayed peer_addr [])])

/-- Target filter of `relay`: the Rust loop body runs
`if let Some(addr) = to { if client.peer_addr() != addr { continue; } }`,
that is, a client passes when the relay is a broadcast or when its peer
address equals the target address. -/
def target_matches (target : Option Nat) (client : Destination) : Bool :=
  match target with
  | some a => client.peerAddr == a
  | none => true

/-- Rust `fn relay`: resolve the sender through `relay_clients`, then fan the
payload out to the room's clients.  The source locks the room and `clone()`s
it; `retain` then prunes dead weak references from that clone only, so the
registry state is returned unchanged.  A client is skipped when it is the
sender itself (`Arc::ptr_eq`) or, for a targeted relay, when its peer address
differs from the target. -/
def relay (mm : Matchmaker) (addr : Nat) (dest : Destination) (target : Option Nat)
    (data : List Nat) (live : List Nat) : Matchmaker × List (Nat × Packet) :=
  match alookup mm.relay_clients addr with
  | none => (mm, [send_error dest "Only relay clients may send Relay packets"])
  | some room_id =>
    match alookup mm.rooms room_id with
    | none => (mm, [send_error dest "The host seems to have disconnected"])
    | some room =>
      let clients := room.clients.filter (fun c => live.contains c.connId)
      let packet := Packet.relayed addr data
      let effects := clients.filterMap (fun client =>
        if client.connId = dest.connId then none
        else if target_matches target client then some (send_packet client packet)
        else none)
      (mm, effects)

/-- Rust `fn disconnect`: remove the peer from `host_rooms` (deleting its room)
and from `relay_clients`; if it was a relay client and its room still exists,
send `Disconnected` to every upgradable client of the room other than the
disconnecting peer itself. -/
def disconnect (mm : Matchmaker) (peer_addr : Nat) (dest : Destination)
    (live : List Nat) : Matchmaker × List (Nat × Packet) :=
  let hostEntry := alookup mm.host_rooms peer_addr
  let host_rooms' := mapErase mm.host_rooms peer_addr
  let rooms' :=
    match hostEntry with
    | some room_id => mapErase mm.rooms room_id
    | none => mm.rooms
  let relayEntry := alookup mm.relay_clients peer_addr
  let relay_clients' := mapErase mm.relay_clients peer_addr
  let effects :=
    match relayEntry with
    | some room_id =>
      match alookup rooms' room_id with
      | some room =>
        room.clients.filterMap (fun client =>
          if live.contains client.connId then
            if client.connId = dest.connId then none
            else some (send_packet client (Packet.disconnected peer_addr))
          else none)
      | none => []
    | none => []
  ({ rooms := rooms', host_rooms := host_rooms', relay_clients := relay_clients' },
   effects)

/-! ## Sequential runs of the matchmaker

A `World` couples the registry with the ambient connection state: `live` is
the list of connections whose handler still holds its `Arc<Destination>`
(so their weak references upgrade), `usedIds` the list of `Arc` identities
ever allocated (allocated identities are never reused). -/

structure World where
  mm : Matchmaker
  live : List Destination
  usedIds : List Nat

/-- The `connId`s of the currently live connections. -/
def World.liveIds (w : World) : List Nat :=
  w.live.map Destination.connId

/-- States reachable by a sequential run of the matchmaker.  Each constructor
is one event the connection handler can dispatch.  `strict` toggles the extra
protocol discipline that a connection sends at most one `Host` and registers
as a relay client at most once while connected; with `strict = false` any
sequence of operations is allowed. -/
inductive ReachG : Bool → World → Prop where
  | init (strict : Bool) : ReachG strict ⟨Matchmaker.new, [], []⟩
  | step_connect (strict : Bool) (w : World) (d : Destination) :
      ReachG strict w →
      d.connId ∉ w.usedIds →
      d.peerAddr ∉ w.live.map Destination.peerAddr →
      ReachG strict ⟨w.mm, d :: w.live, d.connId :: w.usedIds⟩
  | step_host (strict : Bool) (w : World) (d : Destination) (rng : Nat → Nat) :
      ReachG strict w →
      d ∈ w.live →
      (∀ i, rng i ≤ MAX_ROOM_ID) →
      (strict = true → alookup w.mm.host_rooms d.peerAddr = none) →
      ReachG strict ⟨(host w.mm d rng).1, w.live, w.usedIds⟩
  | step_add_relay (strict : Bool) (w : World) (d : Destination)
      (host_addr? : Option Nat) (st : Matchmaker) (effs : List (Nat × Packet)) :
      ReachG strict w →
      d ∈ w.live →
      add_relay w.mm d host_addr? = some (st, effs) →
      (strict = true → alookup w.mm.relay_clients d.peerAddr = none) →
      ReachG strict ⟨st, w.live, w.usedIds⟩
  | step_relay (strict : Bool) (w : World) (d : Destination) (target : Option Nat)
      (data : List Nat) :
      ReachG strict w →
      d ∈ w.live →
      ReachG strict ⟨(relay w.mm d.peerAddr d target data w.liveIds).1, w.live, w.usedIds⟩
  | step_disconnect (strict : Bool) (w : World) (d : Destination) :
      ReachG strict w →
      d ∈ w.live →
      ReachG strict ⟨(disconnect w.mm d.peerAddr d w.liveIds).1,
                     w.live.filter (fun e => e.connId != d.connId), w.usedIds⟩

/-- Keys of an association list, without duplicates. -/
def keysNodup {β : Type} (m : List (Nat × β)) : Prop :=
  (m.map Prod.fst).Nodup

/-- Structural invariant maintained by every sequential run (no protocol
discipline assumed). -/
structure Inv (w : World) : Prop where
  rooms_keys : keysNodup w.mm.rooms
  room_id_eq : ∀ p ∈ w.mm.rooms, (p : Nat × Room).2.id = p.1
  room_id_le : ∀ p ∈ w.mm.rooms, (p : Nat × Room).1 ≤ MAX_ROOM_ID
  hostr_sub : ∀ p ∈ w.mm.host_rooms,
    (alookup w.mm.rooms (p : Nat × Nat).2).isSome = true
  hostr_inj : ∀ p ∈ w.mm.host_rooms, ∀ q ∈ w.mm.host_rooms,
    (p : Nat × Nat).2 = (q : Nat × Nat).2 → p.1 = q.1
  live_ids_nodup : (w.live.map Destination.connId).Nodup
  live_addrs_nodup : (w.live.map Destination.peerAddr).Nodup
  live_sub_used : ∀ d ∈ w.live, (d : Destination).connId ∈ w.usedIds
  clients_used : ∀ p ∈ w.mm.rooms, ∀ c ∈ (p : Nat × Room).2.clients,
    (c : Destination).connId ∈ w.usedIds
  clients_live : ∀ p ∈ w.mm.rooms, ∀ c ∈ (p : Nat × Room).2.clients,
    (c : Destination).connId ∈ w.liveIds → c ∈ w.live

/-- The spec's cross-map invariant: every room's host address maps back to
the room in `host_rooms`, and every upgradable client in a room's client
list maps back to the room in `relay_clients`.  Holds under the strict
discipline (`ReachG true`). -/
structure SInv (w : World) : Prop where
  inv : Inv w
  host_back : ∀ p ∈ w.mm.rooms,
    alookup w.mm.host_rooms (p : Nat × Room).2.host.peerAddr = some p.1
  relay_back : ∀ p ∈ w.mm.rooms, ∀ c ∈ (p : Nat × Room).2.clients,
    (c : Destination).connId ∈ w.liveIds →
    alookup w.mm.relay_clients (c : Destination).peerAddr = some p.1

/-! ## Client-side socket layer (`src/net/socket/socket.rs`) -/

/-- Rust `enum SendPacket<T>`: either a packet to serialize and send, or the quit
signal injected when the `Socket` handle is dropped. -/
inductive SendPacket (T : Type) where
  | packet (token : Nat) (data : T)
  | quit (token : Nat)
deriving DecidableEq, Repr

/-- An event pushed onto the global bus by the socket layer. -/
inductive BusEvent where
  | fatal (message : String)
deriving DecidableEq, Repr

/-- Rust `struct Slot<T>`: the per-connection sender.  `queue` is the content of
the unbounded channel to the send loop; `senderOpen` records whether the send
loop still holds the receiving end (an `unbounded_send` on a closed channel
returns `Err`). -/
structure Slot (T : Type) where
  queue : List (SendPacket T)
  senderOpen : Bool
deriving DecidableEq, Repr

/-- Rust `struct SocketSystemInner<T>`: the map from connection tokens to slots
(`socket_threads`); a slot is `none` once `wait` has taken it. -/
structure SocketSystemInner (T : Type) where
  socket_threads : List (Nat × Option (Slot T))
deriving DecidableEq, Repr

/-- Rust `SocketSystemInner::send`: look the token's slot up; when present, try to
enqueue on the unbounded channel.  Enqueueing never blocks; on a closed
channel a `Fatal("internal error")` is pushed onto the global bus.  When the
token has no slot the packet is dropped silently. -/
def SocketSystemInner.send {T : Type} (sys : SocketSystemInner T)
    (packet : SendPacket T) (token : Nat) : SocketSystemInner T × List BusEvent :=
  match alookup sys.socket_threads token with
  | some (some slot) =>
    if slot.senderOpen then
      ({ socket_threads := mapInsert sys.socket_threads token
           (some { slot with queue := slot.queue ++ [packet] }) }, [])
    else (sys, [BusEvent.fatal "internal error"])
  | some none => (sys, [])
  | none => (sys, [])

/-- Rust `struct Socket<T>`: the unique handle to one logical connection. -/
structure Socket (T : Type) where
  token : Nat
deriving DecidableEq, Repr

/-- Rust `Socket::send`: wrap the data in `SendPacket::Packet` and hand it to the
system (which locks the inner state and calls `SocketSystemInner::send`). -/
def Socket.send {T : Type} (socket : Socket T) (sys : SocketSystemInner T)
    (data : T) : SocketSystemInner T × List BusEvent :=
  sys.send (SendPacket.packet socket.token data) socket.token

/-! ## Wire-level payload size guard -/

/-- The typed errors of the oversized-payload guard, from the `Error` enum in
`src/errors.rs` (`ReceivedPacketThatIsTooBig`, `TriedToSendPacketThatIsTooBig`). -/
inductive NetError where
  | ReceivedPacketThatIsTooBig
  | TriedToSendPacketThatIsTooBig (max : Nat) (size : Nat)
deriving DecidableEq, Repr

/-- Modelled from the spec: the encode half of the payload-size guard.  The
codec enforcing it lives in the `netcanv-protocol` crate (`errors.rs` imports
`netcanv_protocol::relay`), which belongs to this repository but is not among
the provided sources; `errors.rs` only declares the typed error variants.
Following the spec, a best-effort maximum payload size is enforced on the
encode path: encoding a payload exceeding the maximum produces the typed
error `TriedToSendPacketThatIsTooBig` rather than a truncated or corrupted
frame, and an in-bounds payload is framed unchanged. -/
def encode_payload (maxSize : Nat) (payload : List Nat) : Except NetError (List Nat) :=
  if maxSize < payload.length then
    Except.error (NetError.TriedToSendPacketThatIsTooBig maxSize payload.length)
  else Except.ok payload

/-- Modelled from the spec: the decode half of the payload-size guard (see
`encode_payload`).  An oversized incoming frame is rejected with the typed
protocol error `ReceivedPacketThatIsTooBig` instead of being decoded or
panicking. -/
def decode_payload (maxSize : Nat) (frame : List Nat) : Except NetError (List Nat) :=
  if maxSize < frame.length then Except.error NetError.ReceivedPacketThatIsTooBig
  else Except.ok frame

/-! Concrete registries, worlds and socket systems used by the witnesses and
counterexamples below. -/

/-- Fully occupied room registry holding the ids `0 .. n-1`. -/
def fullRooms : Nat → List (Nat × Room)
  | 0 => []
  | n + 1 => (n, ⟨⟨0, 0⟩, [], n⟩) :: fullRooms n

/-- Example connection: connection id 0, address 10. -/
def exDest : Destination := ⟨0, 10⟩

/-- The initial world. -/
def exW0 : World := ⟨Matchmaker.new, [], []⟩

/-- After `exDest` connects. -/
def exW1 : World := ⟨exW0.mm, exDest :: exW0.live, exDest.connId :: exW0.usedIds⟩

/-- After `exDest` hosts a room (the rng keeps producing 1). -/
def exW2 : World := ⟨(host exW1.mm exDest (fun _ => 1)).1, exW1.live, exW1.usedIds⟩

/-- After `exDest` hosts a second room without disconnecting (the rng now
produces 2) — a sequence the matchmaker accepts. -/
def exW3 : World := ⟨(host exW2.mm exDest (fun _ => 2)).1, exW2.live, exW2.usedIds⟩

/-- The registry after the strict run connect → `Host` → `RequestRelay` of
`exDest`, written out literally. -/
def witMM3 : Matchmaker := ⟨[(1, ⟨⟨0, 10⟩, [⟨0, 10⟩], 1⟩)], [(10, 1)], [(10, 1)]⟩

/-- The world reached by that strict run. -/
def witW3 : World := ⟨witMM3, [exDest], [0]⟩

/-- A room with host `⟨0,10⟩` and relay clients `⟨1,11⟩`, `⟨2,12⟩`, `⟨3,13⟩`. -/
def relayMM : Matchmaker :=
  ⟨[(1, ⟨⟨0, 10⟩, [⟨1, 11⟩, ⟨2, 12⟩, ⟨3, 13⟩], 1⟩)],
   [(10, 1)],
   [(11, 1), (12, 1), (13, 1)]⟩

/-- A room whose stored client list holds a dead weak reference `⟨2,12⟩`
while `⟨1,11⟩` is a live relay client of the room. -/
def deadMM : Matchmaker := ⟨[(1, ⟨⟨0, 10⟩, [⟨2, 12⟩], 1⟩)], [(10, 1)], [(11, 1)]⟩

/-- Self-hosting room: host `⟨0,10⟩` of room 1 is registered as a relay
client of its own room, and `⟨1,11⟩` is a second relay client. -/
def discMM : Matchmaker :=
  ⟨[(1, ⟨⟨0, 10⟩, [⟨0, 10⟩, ⟨1, 11⟩], 1⟩)], [(10, 1)], [(10, 1), (11, 1)]⟩

/-- A socket system whose only slot's channel is closed (its send loop has
dropped the receiving end). -/
def closedSys : SocketSystemInner Nat := ⟨[(0, some ⟨[], false⟩)]⟩

/-- A socket system with one open slot. -/
def openSys : SocketSystemInner Nat := ⟨[(0, some ⟨[], true⟩)]⟩

/-! ## Association-list lemmas -/

theorem alookup_cons {β : Type} (a k : Nat) (b : β) (rest : List (Nat × β)) :
    alookup ((a, b) :: rest) k = if a = k then some b else alookup rest k := rfl

theorem alookup_mapErase {β : Type} (m : List (Nat × β)) (k k' : Nat) :
    alookup (mapErase m k) k' = if k' = k then none else alookup m k' := by
  induction m with
  | nil => by_cases hk : k' = k <;> simp [mapErase, alookup, hk]
  | cons p rest ih =>
    obtain ⟨a, b⟩ := p
    by_cases hak : a = k
    · subst hak
      rw [show mapErase ((a, b) :: rest) a = mapErase rest a from if_pos rfl, ih]
      by_cases hk : k' = a
      · simp [hk]
      · rw [if_neg hk, if_neg hk, alookup_cons, if_neg (fun h : a = k' => hk h.symm)]
    · rw [show mapErase ((a, b) :: rest) k = (a, b) :: mapErase rest k from if_neg hak,
        alookup_cons, alookup_cons, ih]
      by_cases hak' : a = k'
      · subst hak'
        simp [hak]
      · simp [hak']

theorem alookup_mapErase_self {β : Type} (m : List (Nat × β)) (k : Nat) :
    alookup (mapErase m k) k = none := by
  simp [alookup_mapErase]

theorem alookup_mapErase_ne {β : Type} (m : List (Nat × β)) (k k' : Nat)
    (h : k' ≠ k) : alookup (mapErase m k) k' = alookup m k' := by
  simp [alookup_mapErase, h]

theorem alookup_mapInsert {β : Type} (m : List (Nat × β)) (k k' : Nat) (v : β) :
    alookup (mapInsert m k v) k' = if k = k' then some v else alookup m k' := by
  rw [mapInsert, alookup_cons]
  by_cases hk : k = k'
  · simp [hk]
  · simp [hk, alookup_mapErase, if_neg (fun h : k' = k => hk h.symm)]

theorem alookup_mapInsert_self {β : Type} (m : List (Nat × β)) (k : Nat) (v : β) :
    alookup (mapInsert m k v) k = some v := by
  simp [alookup_mapInsert]

theorem alookup_mapInsert_ne {β : Type} (m : List (Nat × β)) (k k' : Nat) (v : β)
    (h : k' ≠ k) : alookup (mapInsert m k v) k' = alookup m k' := by
  simp [alookup_mapInsert, if_neg (fun hk : k = k' => h hk.symm)]

theorem mem_mapErase {β : Type} {m : List (Nat × β)} {k : Nat} {p : Nat × β} :
    p ∈ mapErase m k ↔ p ∈ m ∧ p.1 ≠ k := by
  induction m with
  | nil => simp [mapErase]
  | cons q rest ih =>
    obtain ⟨a, b⟩ := q
    by_cases hak : a = k
    · subst hak
      rw [show mapErase ((a, b) :: rest) a = mapErase rest a from if_pos rfl]
      rw [ih]
      constructor
      · rintro ⟨hmem, hne⟩
        exact ⟨List.mem_cons_of_mem _ hmem, hne⟩
      · rintro ⟨hmem, hne⟩
        rcases List.mem_cons.1 hmem with h1 | h2
        · exact absurd (h1 ▸ rfl) hne
        · exact ⟨h2, hne⟩
    · rw [show mapErase ((a, b) :: rest) k = (a, b) :: mapErase rest k from if_neg hak]
      constructor
      · intro hmem
        rcases List.mem_cons.1 hmem with h1 | h2
        · subst h1
          exact ⟨List.mem_cons_self _ _, hak⟩
        · obtain ⟨hmem', hne⟩ := ih.1 h2
          exact ⟨List.mem_cons_of_mem _ hmem', hne⟩
      · rintro ⟨hmem, hne⟩
        rcases List.mem_cons.1 hmem with h1 | h2
        · exact h1 ▸ List.mem_cons_self _ _
        · exact List.mem_cons_of_mem _ (ih.2 ⟨h2, hne⟩)

theorem mem_mapInsert {β : Type} {m : List (Nat × β)} {k : Nat} {v : β} {p : Nat × β} :
    p ∈ mapInsert m k v ↔ p = (k, v) ∨ (p ∈ m ∧ p.1 ≠ k) := by
  simp [mapInsert, mem_mapErase]

theorem alookup_mem {β : Type} {m : List (Nat × β)} {k : Nat} {v : β}
    (h : alookup m k = some v) : (k, v) ∈ m := by
  induction m with
  | nil => simp [alookup] at h
  | cons p rest ih =>
    obtain ⟨a, b⟩ := p
    by_cases hak : a = k
    · subst hak
      rw [alookup_cons, if_pos rfl] at h
      cases h
      exact List.mem_cons_self _ _
    · rw [alookup_cons, if_neg hak] at h
      exact List.mem_cons_of_mem _ (ih h)

theorem mem_alookup_isSome {β : Type} {m : List (Nat × β)} {k : Nat} {v : β}
    (h : (k, v) ∈ m) : (alookup m k).isSome := by
  induction m with
  | nil => simp at h
  | cons p rest ih =>
    obtain ⟨a, b⟩ := p
    rcases List.mem_cons.1 h with h1 | h2
    · cases h1
      simp [alookup_cons]
    · by_cases hak : a = k
      · simp [alookup_cons, hak]
      · simpa [alookup_cons, hak] using ih h2

theorem mapErase_sublist {β : Type} (m : List (Nat × β)) (k : Nat) :
    (mapErase m k).Sublist m := by
  induction m with
  | nil => simp [mapErase]
  | cons p rest ih =>
    obtain ⟨a, b⟩ := p
    by_cases hak : a = k
    · rw [show mapErase ((a, b) :: rest) k = mapErase rest k from if_pos hak]
      exact ih.cons _
    · rw [show mapErase ((a, b) :: rest) k = (a, b) :: mapErase rest k from if_neg hak]
      exact ih.cons₂ _


theorem keysNodup_nil {β : Type} : keysNodup ([] : List (Nat × β)) := by
  simp [keysNodup]

theorem keysNodup_mapErase {β : Type} {m : List (Nat × β)} (k : Nat)
    (h : keysNodup m) : keysNodup (mapErase m k) :=
  List.Nodup.sublist (List.Sublist.map Prod.fst (mapErase_sublist m k)) h

theorem keysNodup_mapInsert {β : Type} {m : List (Nat × β)} (k : Nat) (v : β)
    (h : keysNodup m) : keysNodup (mapInsert m k v) := by
  refine List.nodup_cons.2 ⟨?_, keysNodup_mapErase k h⟩
  intro hmem
  rcases List.mem_map.1 hmem with ⟨p, hp, hpk⟩
  exact (mem_mapErase.1 hp).2 hpk

/-! ## `find_free_room_id` lemmas -/

theorem find_free_room_id_go_sound (rooms : List (Nat × Room)) (rng : Nat → Nat)
    (hr : ∀ j, rng j ≤ MAX_ROOM_ID) :
    ∀ fuel i id, find_free_room_id_go rooms rng i fuel = some id →
      id ≤ MAX_ROOM_ID ∧ alookup rooms id = none := by
  intro fuel
  induction fuel with
  | zero => intro i id h; simp [find_free_room_id_go] at h
  | succ n ih =>
    intro i id h
    simp only [find_free_room_id_go] at h
    by_cases hc : (alookup rooms (rng i)).isSome
    · rw [if_pos hc] at h
      exact ih (i + 1) id h
    · rw [if_neg hc] at h
      cases h
      exact ⟨hr i, Option.not_isSome_iff_eq_none.1 hc⟩

theorem find_free_room_id_sound (rooms : List (Nat × Room)) (rng : Nat → Nat)
    (id : Nat) (hr : ∀ j, rng j ≤ MAX_ROOM_ID)
    (h : find_free_room_id rooms rng = some id) :
    id ≤ MAX_ROOM_ID ∧ alookup rooms id = none :=
  find_free_room_id_go_sound rooms rng hr 49 0 id h

theorem find_free_room_id_go_rng_congr (rooms : List (Nat × Room))
    (rng rng' : Nat → Nat) :
    ∀ fuel i, (∀ j, i ≤ j → j < i + fuel → rng j = rng' j) →
      find_free_room_id_go rooms rng i fuel = find_free_room_id_go rooms rng' i fuel := by
  intro fuel
  induction fuel with
  | zero => intro i _; rfl
  | succ n ih =>
    intro i hagree
    have hi : rng i = rng' i := hagree i le_rfl (by omega)
    simp only [find_free_room_id_go, hi]
    by_cases hc : (alookup rooms (rng' i)).isSome
    · rw [if_pos hc, if_pos hc]
      exact ih (i + 1) (fun j h1 h2 => hagree j (by omega) (by omega))
    · rw [if_neg hc, if_neg hc]

theorem find_free_room_id_go_exhausted (rooms : List (Nat × Room)) (rng : Nat → Nat)
    (hr : ∀ j, rng j ≤ MAX_ROOM_ID)
    (hfull : ∀ id, id ≤ MAX_ROOM_ID → (alookup rooms id).isSome) :
    ∀ fuel i, find_free_room_id_go rooms rng i fuel = none := by
  intro fuel
  induction fuel with
  | zero => intro i; rfl
  | succ n ih =>
    intro i
    simp only [find_free_room_id_go]
    rw [if_pos (hfull (rng i) (hr i))]
    exact ih (i + 1)

/-! ## Characterizations of the operations' state results -/

theorem host_state_of_some {mm : Matchmaker} {d : Destination} {rng : Nat → Nat}
    {rid : Nat} (h : find_free_room_id mm.rooms rng = some rid) :
    (host mm d rng).1 =
      { mm with
          rooms := mapInsert mm.rooms rid { host := d, clients := [], id := rid },
          host_rooms := mapInsert mm.host_rooms d.peerAddr rid } := by
  simp [host, h]

theorem host_state_of_none {mm : Matchmaker} {d : Destination} {rng : Nat → Nat}
    (h : find_free_room_id mm.rooms rng = none) : (host mm d rng).1 = mm := by
  simp [host, h]

theorem add_relay_some_cases {mm : Matchmaker} {d : Destination}
    {host_addr? : Option Nat} {st : Matchmaker} {effs : List (Nat × Packet)}
    (h : add_relay mm d host_addr? = some (st, effs)) :
    (alookup mm.host_rooms (host_addr?.getD d.peerAddr) = none ∧ st = mm) ∨
    (∃ rid room, alookup mm.host_rooms (host_addr?.getD d.peerAddr) = some rid ∧
      alookup mm.rooms rid = some room ∧
      st = { mm with
              rooms := mapInsert mm.rooms rid
                { room with clients := room.clients ++ [d] },
              relay_clients := mapInsert mm.relay_clients d.peerAddr rid }) := by
  cases hh : alookup mm.host_rooms (host_addr?.getD d.peerAddr) with
  | none =>
    simp only [add_relay, hh, Option.some.injEq, Prod.mk.injEq] at h
    exact Or.inl ⟨rfl, h.1.symm⟩
  | some rid =>
    cases hr : alookup mm.rooms rid with
    | none => simp [add_relay, hh, hr] at h
    | some room =>
      simp only [add_relay, hh, hr, Option.some.injEq, Prod.mk.injEq] at h
      exact Or.inr ⟨rid, room, rfl, hr, h.1.symm⟩

theorem relay_state_eq (mm : Matchmaker) (addr : Nat) (dest : Destination)
    (target : Option Nat) (data : List Nat) (live : List Nat) :
    (relay mm addr dest target data live).1 = mm := by
  cases h1 : alookup mm.relay_clients addr with
  | none => simp [relay, h1]
  | some rid =>
    cases h2 : alookup mm.rooms rid with
    | none => simp [relay, h1, h2]
    | some room => simp [relay, h1, h2]

theorem disconnect_state (mm : Matchmaker) (peer_addr : Nat) (dest : Destination)
    (live : List Nat) :
    (disconnect mm peer_addr dest live).1 =
      { rooms :=
          match alookup mm.host_rooms peer_addr with
          | some rid => mapErase mm.rooms rid
          | none => mm.rooms,
        host_rooms := mapErase mm.host_rooms peer_addr,
        relay_clients := mapErase mm.relay_clients peer_addr } := by
  unfold disconnect
  rfl

/-! ## The registry invariant over sequential runs -/


theorem inv_init : Inv ⟨Matchmaker.new, [], []⟩ := by
  constructor <;> simp [Matchmaker.new, keysNodup_nil, keysNodup]

theorem inv_connect {w : World} {d : Destination} (hinv : Inv w)
    (hid : d.connId ∉ w.usedIds) (haddr : d.peerAddr ∉ w.live.map Destination.peerAddr) :
    Inv ⟨w.mm, d :: w.live, d.connId :: w.usedIds⟩ := by
  constructor
  · exact hinv.rooms_keys
  · exact hinv.room_id_eq
  · exact hinv.room_id_le
  · exact hinv.hostr_sub
  · exact hinv.hostr_inj
  · refine List.nodup_cons.2 ⟨?_, hinv.live_ids_nodup⟩
    intro hmem
    rcases List.mem_map.1 hmem with ⟨e, he, heq⟩
    exact hid (heq ▸ hinv.live_sub_used e he)
  · exact List.nodup_cons.2 ⟨haddr, hinv.live_addrs_nodup⟩
  · intro e he
    rcases List.mem_cons.1 he with h1 | h2
    · subst h1; exact List.mem_cons_self _ _
    · exact List.mem_cons_of_mem _ (hinv.live_sub_used e h2)
  · intro p hp c hc
    exact List.mem_cons_of_mem _ (hinv.clients_used p hp c hc)
  · intro p hp c hc hcl
    simp only [World.liveIds, List.map_cons] at hcl
    rcases List.mem_cons.1 hcl with h1 | h2
    · exact absurd (h1 ▸ hinv.clients_used p hp c hc) hid
    · exact List.mem_cons_of_mem _ (hinv.clients_live p hp c hc h2)

theorem inv_host {w : World} {d : Destination} {rng : Nat → Nat} (hinv : Inv w)
    (hrng : ∀ i, rng i ≤ MAX_ROOM_ID) :
    Inv ⟨(host w.mm d rng).1, w.live, w.usedIds⟩ := by
  cases hf : find_free_room_id w.mm.rooms rng with
  | none =>
    rw [host_state_of_none hf]
    exact hinv
  | some rid =>
    obtain ⟨hle, hfree⟩ := find_free_room_id_sound w.mm.rooms rng rid hrng hf
    rw [host_state_of_some hf]
    constructor
    · exact keysNodup_mapInsert _ _ hinv.rooms_keys
    · intro p hp
      rcases mem_mapInsert.1 hp with h1 | ⟨h2, _⟩
      · subst h1; rfl
      · exact hinv.room_id_eq p h2
    · intro p hp
      rcases mem_mapInsert.1 hp with h1 | ⟨h2, _⟩
      · subst h1; exact hle
      · exact hinv.room_id_le p h2
    · intro p hp
      rcases mem_mapInsert.1 hp with h1 | ⟨h2, hne⟩
      · subst h1
        simp [alookup_mapInsert_self]
      · rw [alookup_mapInsert]
        by_cases hr : rid = p.2
        · simp [hr]
        · rw [if_neg hr]
          exact hinv.hostr_sub p h2
    · intro p hp q hq hpq
      rcases mem_mapInsert.1 hp with h1 | ⟨h2, hne⟩ <;>
        rcases mem_mapInsert.1 hq with g1 | ⟨g2, gne⟩
      · rw [h1, g1]
      · exfalso
        have hq2 : q.2 = rid := by rw [← hpq, h1]
        have hs : (alookup w.mm.rooms q.2).isSome = true := hinv.hostr_sub q g2
        rw [hq2, hfree] at hs
        simp at hs
      · exfalso
        have hp2 : p.2 = rid := by rw [hpq, g1]
        have hs : (alookup w.mm.rooms p.2).isSome = true := hinv.hostr_sub p h2
        rw [hp2, hfree] at hs
        simp at hs
      · exact hinv.hostr_inj p h2 q g2 hpq
    · exact hinv.live_ids_nodup
    · exact hinv.live_addrs_nodup
    · exact hinv.live_sub_used
    · intro p hp c hc
      rcases mem_mapInsert.1 hp with h1 | ⟨h2, _⟩
      · subst h1; simp at hc
      · exact hinv.clients_used p h2 c hc
    · intro p hp c hc hcl
      rcases mem_mapInsert.1 hp with h1 | ⟨h2, _⟩
      · subst h1; simp at hc
      · exact hinv.clients_live p h2 c hc hcl

theorem inv_add_relay {w : World} {d : Destination} {host_addr? : Option Nat}
    {st : Matchmaker} {effs : List (Nat × Packet)} (hinv : Inv w)
    (hd : d ∈ w.live) (h : add_relay w.mm d host_addr? = some (st, effs)) :
    Inv ⟨st, w.live, w.usedIds⟩ := by
  rcases add_relay_some_cases h with ⟨_, hst⟩ | ⟨rid, room, hhr, hroom, hst⟩
  · subst hst; exact hinv
  · subst hst
    have hmem : (rid, room) ∈ w.mm.rooms := alookup_mem hroom
    constructor
    · exact keysNodup_mapInsert _ _ hinv.rooms_keys
    · intro p hp
      rcases mem_mapInsert.1 hp with h1 | ⟨h2, _⟩
      · subst h1
        exact hinv.room_id_eq (rid, room) hmem
      · exact hinv.room_id_eq p h2
    · intro p hp
      rcases mem_mapInsert.1 hp with h1 | ⟨h2, _⟩
      · subst h1
        exact hinv.room_id_le (rid, room) hmem
      · exact hinv.room_id_le p h2
    · intro p hp
      rw [alookup_mapInsert]
      by_cases hr : rid = p.2
      · simp [hr]
      · rw [if_neg hr]
        exact hinv.hostr_sub p hp
    · exact hinv.hostr_inj
    · exact hinv.live_ids_nodup
    · exact hinv.live_addrs_nodup
    · exact hinv.live_sub_used
    · intro p hp c hc
      rcases mem_mapInsert.1 hp with h1 | ⟨h2, _⟩
      · subst h1
        simp only [List.mem_append, List.mem_singleton] at hc
        rcases hc with hc1 | hc2
        · exact hinv.clients_used (rid, room) hmem c hc1
        · subst hc2; exact hinv.live_sub_used c hd
      · exact hinv.clients_used p h2 c hc
    · intro p hp c hc hcl
      rcases mem_mapInsert.1 hp with h1 | ⟨h2, _⟩
      · subst h1
        simp only [List.mem_append, List.mem_singleton] at hc
        rcases hc with hc1 | hc2
        · exact hinv.clients_live (rid, room) hmem c hc1 hcl
        · subst hc2; exact hd
      · exact hinv.clients_live p h2 c hc hcl

theorem inv_relay {w : World} {d : Destination} {target : Option Nat}
    {data : List Nat} (hinv : Inv w) :
    Inv ⟨(relay w.mm d.peerAddr d target data w.liveIds).1, w.live, w.usedIds⟩ := by
  rw [relay_state_eq]
  exact hinv

theorem inv_disconnect {w : World} {d : Destination} (hinv : Inv w) :
    Inv ⟨(disconnect w.mm d.peerAddr d w.liveIds).1,
         w.live.filter (fun e => e.connId != d.connId), w.usedIds⟩ := by
  rw [disconnect_state]
  have hrooms_sub : ∀ p : Nat × Room,
      (p ∈ (match alookup w.mm.host_rooms d.peerAddr with
            | some rid => mapErase w.mm.rooms rid
            | none => w.mm.rooms)) → p ∈ w.mm.rooms := by
    intro p hp
    cases hh : alookup w.mm.host_rooms d.peerAddr with
    | none => rw [hh] at hp; exact hp
    | some rid => rw [hh] at hp; exact (mem_mapErase.1 hp).1
  have hfilter_sub : ∀ e : Destination,
      e ∈ w.live.filter (fun e => e.connId != d.connId) → e ∈ w.live :=
    fun e he => (List.mem_filter.1 he).1
  constructor
  · cases hh : alookup w.mm.host_rooms d.peerAddr with
    | none => simpa using hinv.rooms_keys
    | some rid => simpa using keysNodup_mapErase rid hinv.rooms_keys
  · intro p hp
    exact hinv.room_id_eq p (hrooms_sub p hp)
  · intro p hp
    exact hinv.room_id_le p (hrooms_sub p hp)
  · intro p hp
    have hpold : p ∈ w.mm.host_rooms ∧ p.1 ≠ d.peerAddr := mem_mapErase.1 hp
    have hsold : (alookup w.mm.rooms p.2).isSome = true := hinv.hostr_sub p hpold.1
    cases hh : alookup w.mm.host_rooms d.peerAddr with
    | none => simpa using hsold
    | some rid =>
      have hdr : (d.peerAddr, rid) ∈ w.mm.host_rooms := alookup_mem hh
      have hne : p.2 ≠ rid := by
        intro heq
        exact hpold.2 (hinv.hostr_inj p hpold.1 (d.peerAddr, rid) hdr heq)
      simpa [alookup_mapErase_ne _ _ _ hne] using hsold
  · intro p hp q hq hpq
    exact hinv.hostr_inj p (mem_mapErase.1 hp).1 q (mem_mapErase.1 hq).1 hpq
  · exact List.Nodup.sublist
      (List.Sublist.map Destination.connId (List.filter_sublist w.live))
      hinv.live_ids_nodup
  · exact List.Nodup.sublist
      (List.Sublist.map Destination.peerAddr (List.filter_sublist w.live))
      hinv.live_addrs_nodup
  · intro e he
    exact hinv.live_sub_used e (hfilter_sub e he)
  · intro p hp c hc
    exact hinv.clients_used p (hrooms_sub p hp) c hc
  · intro p hp c hc hcl
    simp only [World.liveIds] at hcl
    rcases List.mem_map.1 hcl with ⟨e, he, heq⟩
    have heL : e ∈ w.live := hfilter_sub e he
    have hene : (e.connId != d.connId) = true := (List.mem_filter.1 he).2
    have hcold : c ∈ w.live := by
      refine hinv.clients_live p (hrooms_sub p hp) c hc ?_
      exact heq ▸ List.mem_map_of_mem Destination.connId heL
    refine List.mem_filter.2 ⟨hcold, ?_⟩
    rw [← heq]
    exact hene

/-- Every sequentially reachable world satisfies the structural invariant. -/
theorem inv_of_reach {strict : Bool} {w : World} (h : ReachG strict w) : Inv w := by
  induction h with
  | init => exact inv_init
  | step_connect w d _ hid haddr ih => exact inv_connect ih hid haddr
  | step_host w d rng _ hd hrng _ ih => exact inv_host ih hrng
  | step_add_relay w d haddr st effs _ hd hs _ ih => exact inv_add_relay ih hd hs
  | step_relay w d target data _ hd ih => exact inv_relay ih
  | step_disconnect w d _ hd ih => exact inv_disconnect ih

/-! ## The cross-map invariant under the strict protocol discipline -/


theorem sinv_init : SInv ⟨Matchmaker.new, [], []⟩ := by
  refine ⟨inv_init, ?_, ?_⟩ <;> simp [Matchmaker.new]

theorem sinv_connect {w : World} {d : Destination} (hs : SInv w)
    (hid : d.connId ∉ w.usedIds) (haddr : d.peerAddr ∉ w.live.map Destination.peerAddr) :
    SInv ⟨w.mm, d :: w.live, d.connId :: w.usedIds⟩ := by
  refine ⟨inv_connect hs.inv hid haddr, hs.host_back, ?_⟩
  intro p hp c hc hcl
  simp only [World.liveIds, List.map_cons] at hcl
  rcases List.mem_cons.1 hcl with h1 | h2
  · exact absurd (h1 ▸ hs.inv.clients_used p hp c hc) hid
  · exact hs.relay_back p hp c hc h2

theorem sinv_host {w : World} {d : Destination} {rng : Nat → Nat} (hs : SInv w)
    (hrng : ∀ i, rng i ≤ MAX_ROOM_ID)
    (hstrict : alookup w.mm.host_rooms d.peerAddr = none) :
    SInv ⟨(host w.mm d rng).1, w.live, w.usedIds⟩ := by
  cases hf : find_free_room_id w.mm.rooms rng with
  | none =>
    rw [host_state_of_none hf]
    exact hs
  | some rid =>
    rw [host_state_of_some hf]
    refine ⟨?_, ?_, ?_⟩
    · have := @inv_host w d rng hs.inv hrng
      rwa [host_state_of_some hf] at this
    · intro p hp
      rcases mem_mapInsert.1 hp with h1 | ⟨h2, _⟩
      · subst h1
        simp [alookup_mapInsert_self]
      · have hold := hs.host_back p h2
        have hne : p.2.host.peerAddr ≠ d.peerAddr := by
          intro heq
          rw [heq, hstrict] at hold
          cases hold
        rw [alookup_mapInsert_ne _ _ _ _ hne]
        exact hold
    · intro p hp c hc hcl
      rcases mem_mapInsert.1 hp with h1 | ⟨h2, _⟩
      · subst h1; simp at hc
      · exact hs.relay_back p h2 c hc hcl

theorem sinv_add_relay {w : World} {d : Destination} {host_addr? : Option Nat}
    {st : Matchmaker} {effs : List (Nat × Packet)} (hs : SInv w)
    (hd : d ∈ w.live) (h : add_relay w.mm d host_addr? = some (st, effs))
    (hstrict : alookup w.mm.relay_clients d.peerAddr = none) :
    SInv ⟨st, w.live, w.usedIds⟩ := by
  rcases add_relay_some_cases h with ⟨_, hst⟩ | ⟨rid, room, hhr, hroom, hst⟩
  · subst hst; exact hs
  · subst hst
    have hmem : (rid, room) ∈ w.mm.rooms := alookup_mem hroom
    refine ⟨inv_add_relay hs.inv hd h, ?_, ?_⟩
    · intro p hp
      rcases mem_mapInsert.1 hp with h1 | ⟨h2, _⟩
      · subst h1
        exact hs.host_back (rid, room) hmem
      · exact hs.host_back p h2
    · intro p hp c hc hcl
      rcases mem_mapInsert.1 hp with h1 | ⟨h2, hne⟩
      · subst h1
        simp only [List.mem_append, List.mem_singleton] at hc
        rcases hc with hc1 | hc2
        · have hold := hs.relay_back (rid, room) hmem c hc1 hcl
          have hcne : c.peerAddr ≠ d.peerAddr := by
            intro heq
            rw [heq, hstrict] at hold
            cases hold
          rw [alookup_mapInsert_ne _ _ _ _ hcne]
          exact hold
        · subst hc2
          simp [alookup_mapInsert_self]
      · have hold := hs.relay_back p h2 c hc hcl
        have hcne : c.peerAddr ≠ d.peerAddr := by
          intro heq
          rw [heq, hstrict] at hold
          cases hold
        rw [alookup_mapInsert_ne _ _ _ _ hcne]
        exact hold

theorem sinv_relay {w : World} {d : Destination} {target : Option Nat}
    {data : List Nat} (hs : SInv w) :
    SInv ⟨(relay w.mm d.peerAddr d target data w.liveIds).1, w.live, w.usedIds⟩ := by
  rw [relay_state_eq]
  exact hs

theorem sinv_disconnect {w : World} {d : Destination} (hs : SInv w)
    (hd : d ∈ w.live) :
    SInv ⟨(disconnect w.mm d.peerAddr d w.liveIds).1,
          w.live.filter (fun e => e.connId != d.connId), w.usedIds⟩ := by
  rw [disconnect_state]
  have hrooms_sub : ∀ p : Nat × Room,
      (p ∈ (match alookup w.mm.host_rooms d.peerAddr with
            | some rid => mapErase w.mm.rooms rid
            | none => w.mm.rooms)) → p ∈ w.mm.rooms := by
    intro p hp
    cases hh : alookup w.mm.host_rooms d.peerAddr with
    | none => rw [hh] at hp; exact hp
    | some rid => rw [hh] at hp; exact (mem_mapErase.1 hp).1
  refine ⟨?_, ?_, ?_⟩
  · have := @inv_disconnect w d hs.inv
    rwa [disconnect_state] at this
  · intro p hp
    have hpold : p ∈ w.mm.rooms := hrooms_sub p hp
    have hold := hs.host_back p hpold
    have hne : p.2.host.peerAddr ≠ d.peerAddr := by
      intro heq
      rw [heq] at hold
      cases hh : alookup w.mm.host_rooms d.peerAddr with
      | none => rw [hh] at hold; cases hold
      | some rid =>
        rw [hh] at hold
        cases hold
        rw [hh] at hp
        exact (mem_mapErase.1 hp).2 rfl
    rw [alookup_mapErase_ne _ _ _ hne]
    exact hold
  · intro p hp c hc hcl
    have hpold : p ∈ w.mm.rooms := hrooms_sub p hp
    simp only [World.liveIds] at hcl
    rcases List.mem_map.1 hcl with ⟨e, he, heq⟩
    have heL : e ∈ w.live := (List.mem_filter.1 he).1
    have hene : (e.connId != d.connId) = true := (List.mem_filter.1 he).2
    have hcoldlive : c.connId ∈ w.liveIds := by
      simp only [World.liveIds]
      exact heq ▸ List.mem_map_of_mem Destination.connId heL
    have hold := hs.relay_back p hpold c hc hcoldlive
    have hcmem : c ∈ w.live := hs.inv.clients_live p hpold c hc hcoldlive
    have hcne : c.peerAddr ≠ d.peerAddr := by
      intro haddr
      have hcd : c = d :=
        List.inj_on_of_nodup_map hs.inv.live_addrs_nodup hcmem hd haddr
      rw [heq, hcd] at hene
      simp at hene
    rw [alookup_mapErase_ne _ _ _ hcne]
    exact hold

/-- Every world reachable under the strict protocol discipline satisfies the
cross-map invariant. -/
theorem sinv_of_reach {strict : Bool} {w : World} (h : ReachG strict w) :
    strict = true → SInv w := by
  induction h with
  | init => intro _; exact sinv_init
  | step_connect w d _ hid haddr ih =>
    intro hb; exact sinv_connect (ih hb) hid haddr
  | step_host w d rng _ hd hrng hstrict ih =>
    intro hb; exact sinv_host (ih hb) hrng (hstrict hb)
  | step_add_relay w d haddr st effs _ hd hsome hstrict ih =>
    intro hb; exact sinv_add_relay (ih hb) hd hsome (hstrict hb)
  | step_relay w d target data _ hd ih =>
    intro hb; exact sinv_relay (ih hb)
  | step_disconnect w d _ hd ih =>
    intro hb; exact sinv_disconnect (ih hb) hd

/-! ## Effect-level helper lemmas -/

theorem fullRooms_lookup_isSome :
    ∀ n id, id < n → (alookup (fullRooms n) id).isSome = true := by
  intro n
  induction n with
  | zero => intro id h; omega
  | succ m ih =>
    intro id h
    by_cases hm : m = id
    · simp [fullRooms, alookup_cons, hm]
    · rw [show fullRooms (m + 1) = (m, ⟨⟨0, 0⟩, [], m⟩) :: fullRooms m from rfl,
        alookup_cons, if_neg hm]
      exact ih id (by omega)

theorem target_matches_iff (target : Option Nat) (client : Destination) :
    target_matches target client = true ↔
    ∀ b, target = some b → client.peerAddr = b := by
  cases target with
  | none => simp [target_matches]
  | some a =>
    simp only [target_matches, beq_iff_eq, Option.some.injEq]
    constructor
    · intro h b hb
      exact hb ▸ h
    · intro h
      exact h a rfl

theorem relay_effects_mem {mm : Matchmaker} {addr : Nat} {dest : Destination}
    {target : Option Nat} {data live : List Nat} {rid : Nat} {room : Room}
    (h1 : alookup mm.relay_clients addr = some rid)
    (h2 : alookup mm.rooms rid = some room) (e : Nat × Packet) :
    e ∈ (relay mm addr dest target data live).2 ↔
    ∃ cl, cl ∈ room.clients ∧ live.contains cl.connId = true ∧
      cl.connId ≠ dest.connId ∧ (∀ b, target = some b → cl.peerAddr = b) ∧
      e = (cl.connId, Packet.relayed addr data) := by
  simp only [relay, h1, h2, List.mem_filterMap, List.mem_filter]
  constructor
  · rintro ⟨cl, ⟨hmem, hlive⟩, hf⟩
    by_cases hid : cl.connId = dest.connId
    · rw [if_pos hid] at hf; cases hf
    · rw [if_neg hid] at hf
      by_cases htm : target_matches target cl = true
      · rw [if_pos htm] at hf
        simp only [send_packet, Option.some.injEq] at hf
        exact ⟨cl, hmem, hlive, hid, (target_matches_iff target cl).1 htm, hf.symm⟩
      · rw [if_neg htm] at hf; cases hf
  · rintro ⟨cl, hmem, hlive, hid, htgt, rfl⟩
    refine ⟨cl, ⟨hmem, hlive⟩, ?_⟩
    rw [if_neg hid, if_pos ((target_matches_iff target cl).2 htgt)]
    rfl

theorem relay_error_of_not_client {mm : Matchmaker} {addr : Nat}
    {dest : Destination} {target : Option Nat} {data live : List Nat}
    (h : alookup mm.relay_clients addr = none) :
    (relay mm addr dest target data live).2 =
      [send_error dest "Only relay clients may send Relay packets"] := by
  simp [relay, h]

theorem disconnect_nonhost_effects_mem {mm : Matchmaker} {a : Nat}
    {d : Destination} {live : List Nat} {rid : Nat} {room : Room}
    (h0 : alookup mm.host_rooms a = none)
    (h1 : alookup mm.relay_clients a = some rid)
    (h2 : alookup mm.rooms rid = some room) (e : Nat × Packet) :
    e ∈ (disconnect mm a d live).2 ↔
    ∃ cl, cl ∈ room.clients ∧ live.contains cl.connId = true ∧
      cl.connId ≠ d.connId ∧ e = (cl.connId, Packet.disconnected a) := by
  simp only [disconnect, h0, h1, h2, List.mem_filterMap]
  constructor
  · rintro ⟨cl, hmem, hf⟩
    by_cases hlv : live.contains cl.connId = true
    · rw [if_pos hlv] at hf
      by_cases hid : cl.connId = d.connId
      · rw [if_pos hid] at hf; cases hf
      · rw [if_neg hid] at hf
        simp only [send_packet, Option.some.injEq] at hf
        exact ⟨cl, hmem, hlv, hid, hf.symm⟩
    · rw [if_neg hlv] at hf; cases hf
  · rintro ⟨cl, hmem, hlv, hid, rfl⟩
    refine ⟨cl, hmem, ?_⟩
    rw [if_pos hlv, if_neg hid]
    rfl

theorem disconnect_host_no_effects {mm : Matchmaker} {a : Nat} {d : Destination}
    {live : List Nat} {rid : Nat}
    (h0 : alookup mm.host_rooms a = some rid)
    (h1 : alookup mm.relay_clients a = none ∨ alookup mm.relay_clients a = some rid) :
    (disconnect mm a d live).2 = [] := by
  rcases h1 with h | h
  · simp [disconnect, h0, h]
  · simp [disconnect, h0, h, alookup_mapErase_self]

/-! ## Reachability of the example worlds -/

theorem reach_exW3 : ReachG false exW3 :=
  ReachG.step_host false exW2 exDest (fun _ => 2)
    (ReachG.step_host false exW1 exDest (fun _ => 1)
      (ReachG.step_connect false exW0 exDest (ReachG.init false)
        (by decide) (by decide))
      (by decide) (fun i => (by decide : (1 : Nat) ≤ MAX_ROOM_ID))
      (fun h => Bool.noConfusion h))
    (by decide) (fun i => (by decide : (2 : Nat) ≤ MAX_ROOM_ID))
    (fun h => Bool.noConfusion h)

theorem reach_witW3 : ReachG true witW3 :=
  ReachG.step_add_relay true exW2 exDest none witMM3 [(0, Packet.relayed 10 [])]
    (ReachG.step_host true exW1 exDest (fun _ => 1)
      (ReachG.step_connect true exW0 exDest (ReachG.init true)
        (by decide) (by decide))
      (by decide) (fun i => (by decide : (1 : Nat) ≤ MAX_ROOM_ID))
      (fun _ => by decide))
    (by decide) (by decide) (fun _ => by decide)

/-! ## Claim C1: relay recipient sets -/

/-- C1: for a relay operation by a registered relay client of an existing
room, the recipients of a broadcast `Relay(None, data)` are exactly the live
clients of the room's client list other than the sender itself (the sender
never receives its own payload back), and for `Relay(Some(b), data)` the
recipients are further restricted to the clients whose peer address equals
`b`; every delivered packet is `Relayed(sender, data)`. -/
theorem relay_recipient_sets (mm : Matchmaker) (addr : Nat) (dest : Destination)
    (data live : List Nat) (rid : Nat) (room : Room)
    (h1 : alookup mm.relay_clients addr = some rid)
    (h2 : alookup mm.rooms rid = some room) :
    (∀ c : Nat, c ∈ (relay mm addr dest none data live).2.map Prod.fst ↔
       ∃ cl, cl ∈ room.clients ∧ live.contains cl.connId = true ∧
         cl.connId ≠ dest.connId ∧ cl.connId = c) ∧
    (∀ b c : Nat, c ∈ (relay mm addr dest (some b) data live).2.map Prod.fst ↔
       ∃ cl, cl ∈ room.clients ∧ live.contains cl.connId = true ∧
         cl.connId ≠ dest.connId ∧ cl.peerAddr = b ∧ cl.connId = c) ∧
    (∀ target : Option Nat,
       dest.connId ∉ (relay mm addr dest target data live).2.map Prod.fst) ∧
    (∀ target : Option Nat, ∀ e ∈ (relay mm addr dest target data live).2,
       (e : Nat × Packet).2 = Packet.relayed addr data) := by
  refine ⟨?_, ?_, ?_, ?_⟩
  · intro c
    rw [List.mem_map]
    constructor
    · rintro ⟨e, he, hc⟩
      obtain ⟨cl, hcl, hlv, hne, _, rfl⟩ := (relay_effects_mem h1 h2 e).1 he
      exact ⟨cl, hcl, hlv, hne, hc⟩
    · rintro ⟨cl, hcl, hlv, hne, rfl⟩
      exact ⟨(cl.connId, Packet.relayed addr data),
        (relay_effects_mem h1 h2 _).2
          ⟨cl, hcl, hlv, hne, fun b hb => Option.noConfusion hb, rfl⟩, rfl⟩
  · intro b c
    rw [List.mem_map]
    constructor
    · rintro ⟨e, he, hc⟩
      obtain ⟨cl, hcl, hlv, hne, htg, rfl⟩ := (relay_effects_mem h1 h2 e).1 he
      exact ⟨cl, hcl, hlv, hne, htg b rfl, hc⟩
    · rintro ⟨cl, hcl, hlv, hne, hpa, rfl⟩
      refine ⟨(cl.connId, Packet.relayed addr data),
        (relay_effects_mem h1 h2 _).2 ⟨cl, hcl, hlv, hne, ?_, rfl⟩, rfl⟩
      intro b' hb'
      cases hb'
      exact hpa
  · intro target hmem
    rw [List.mem_map] at hmem
    obtain ⟨e, he, hc⟩ := hmem
    obtain ⟨cl, hcl, hlv, hne, _, rfl⟩ := (relay_effects_mem h1 h2 e).1 he
    exact hne hc
  · intro target e he
    obtain ⟨cl, hcl, hlv, hne, _, rfl⟩ := (relay_effects_mem h1 h2 e).1 he
    rfl

/-- C1 witness: in `relayMM` a broadcast from the client at address 11
reaches connection 2, while a relay targeted at address 12 does not reach
connection 3. -/
theorem relay_recipient_sets_witness :
    (2 ∈ (relay relayMM 11 ⟨1, 11⟩ none [9] [1, 2, 3]).2.map Prod.fst) ∧
    (3 ∉ (relay relayMM 11 ⟨1, 11⟩ (some 12) [9] [1, 2, 3]).2.map Prod.fst) := by
  have h := relay_recipient_sets relayMM 11 ⟨1, 11⟩ [9] [1, 2, 3] 1
    ⟨⟨0, 10⟩, [⟨1, 11⟩, ⟨2, 12⟩, ⟨3, 13⟩], 1⟩ (by decide) (by decide)
  constructor
  · exact (h.1 2).2 ⟨⟨2, 12⟩, by decide, by decide, by decide, rfl⟩
  · intro hmem
    have hx := (h.2.1 12 3).1 hmem
    revert hx
    decide

/-! ## Claim C2: the cross-map registry invariant -/

/-- C2 counterexample: the operation sequence connect, `Host`, `Host` (one
connection hosting twice without disconnecting) is accepted by the
matchmaker and reaches a state in which the first room's host address no
longer maps back to that room's id in `host_rooms`, so the invariant does
not hold after arbitrary sequences of the registry operations. -/
theorem registry_cross_map_cex :
    ReachG false exW3 ∧
    ¬ (∀ p ∈ exW3.mm.rooms,
        alookup exW3.mm.host_rooms (p : Nat × Room).2.host.peerAddr =
          some (p : Nat × Room).2.id) := by
  refine ⟨reach_exW3, ?_⟩
  decide

/-- C2 (amended): the cross-map invariant holds in every state reachable
under the protocol discipline that a connection issues at most one `Host`
and registers as a relay client at most once per connection (`ReachG true`):
every room's host address maps back to the room's id in `host_rooms`, and
every live entry of a room's client list maps back to the room's id in
`relay_clients`.  Without that discipline a second `Host` (or a second
`RequestRelay` towards a different room) overwrites the inverse index and
the invariant fails, as the counterexample shows. -/
theorem registry_cross_map_invariant {w : World} (h : ReachG true w) :
    ∀ p ∈ w.mm.rooms,
      alookup w.mm.host_rooms (p : Nat × Room).2.host.peerAddr =
        some (p : Nat × Room).2.id ∧
      ∀ c ∈ (p : Nat × Room).2.clients, (c : Destination).connId ∈ w.liveIds →
        alookup w.mm.relay_clients (c : Destination).peerAddr =
          some (p : Nat × Room).2.id := by
  have hs := sinv_of_reach h rfl
  intro p hp
  rw [hs.inv.room_id_eq p hp]
  exact ⟨hs.host_back p hp, fun c hc hcl => hs.relay_back p hp c hc hcl⟩

/-- C2 witness: in the strict run reaching `witW3` both inverse indices map
the host's address back to room id 1. -/
theorem registry_cross_map_invariant_witness :
    alookup witW3.mm.host_rooms 10 = some 1 ∧
    alookup witW3.mm.relay_clients 10 = some 1 := by
  have h := registry_cross_map_invariant reach_witW3
    (1, ⟨⟨0, 10⟩, [⟨0, 10⟩], 1⟩) (by decide)
  exact ⟨h.1, h.2 ⟨0, 10⟩ (by decide) (by decide)⟩

/-! ## Claim C3: disconnect notifications -/

/-- C3 counterexample: when the host `⟨0,10⟩` of room 1 disconnects, its
room is removed from `rooms` before the notification lookup, so the
remaining live relay client `⟨1,11⟩` receives no `Disconnected` packet —
the disconnect produces no notification at all. -/
theorem disconnect_notify_cex :
    (⟨1, 11⟩ : Destination) ∈ (⟨⟨0, 10⟩, [⟨0, 10⟩, ⟨1, 11⟩], 1⟩ : Room).clients ∧
    alookup discMM.rooms 1 = some ⟨⟨0, 10⟩, [⟨0, 10⟩, ⟨1, 11⟩], 1⟩ ∧
    [0, 1].contains (1 : Nat) = true ∧
    (disconnect discMM 10 ⟨0, 10⟩ [0, 1]).2 = [] := by
  decide

/-- C3 (amended): when a non-host relay client disconnects, exactly the live
clients in its room's stored client list other than the disconnecting peer
itself receive `Disconnected(addr)`; when the disconnecting peer is a host
(including a self-hosting host that also registered as relay client), the
room is removed before the notification lookup and no `Disconnected` packet
is sent. -/
theorem disconnect_notifications (mm : Matchmaker) (a : Nat) (d : Destination)
    (live : List Nat) :
    (∀ rid room, alookup mm.host_rooms a = none →
       alookup mm.relay_clients a = some rid →
       alookup mm.rooms rid = some room →
       ∀ e, e ∈ (disconnect mm a d live).2 ↔
         ∃ cl, cl ∈ room.clients ∧ live.contains cl.connId = true ∧
           cl.connId ≠ d.connId ∧ e = (cl.connId, Packet.disconnected a)) ∧
    (∀ rid, alookup mm.host_rooms a = some rid →
       (alookup mm.relay_clients a = none ∨ alookup mm.relay_clients a = some rid) →
       (disconnect mm a d live).2 = []) := by
  constructor
  · intro rid room h0 h1 h2 e
    exact disconnect_nonhost_effects_mem h0 h1 h2 e
  · intro rid h0 h1
    exact disconnect_host_no_effects h0 h1

/-- C3 witness: the relay client at address 11 of `discMM` disconnects and
the live host connection 0 is notified; in the host-disconnect case nothing
is sent. -/
theorem disconnect_notifications_witness :
    ((0, Packet.disconnected 11) ∈ (disconnect discMM 11 ⟨1, 11⟩ [0, 1]).2) ∧
    (disconnect discMM 10 ⟨0, 10⟩ [0, 1]).2 = [] := by
  have h := disconnect_notifications discMM 11 ⟨1, 11⟩ [0, 1]
  have h2 := disconnect_notifications discMM 10 ⟨0, 10⟩ [0, 1]
  constructor
  · exact (h.1 1 ⟨⟨0, 10⟩, [⟨0, 10⟩, ⟨1, 11⟩], 1⟩ (by decide) (by decide) (by decide)
      (0, Packet.disconnected 11)).2 ⟨⟨0, 10⟩, by decide, by decide, by decide, rfl⟩
  · exact h2.2 1 (by decide) (Or.inr (by decide))

/-! ## Claim C4: dead-reference handling in relay -/

/-- C4 counterexample: with the dead weak reference `⟨2,12⟩` in the stored
client list of room 1 (connection 2 is not live), a relay from the live
client at address 11 delivers nothing and raises no error — but afterwards
the dead weak reference is still present in the room's stored client list:
`relay` prunes only a local clone of the room, the registry is unchanged. -/
theorem relay_dead_pruning_cex :
    ((relay deadMM 11 ⟨1, 11⟩ none [7] [0, 1]).2 = []) ∧
    alookup (relay deadMM 11 ⟨1, 11⟩ none [7] [0, 1]).1.rooms 1 =
      some ⟨⟨0, 10⟩, [⟨2, 12⟩], 1⟩ ∧
    ([0, 1].contains (2 : Nat) = false) := by
  decide

/-- C4 (amended): a relay call by a registered relay client of an existing
room never produces an error packet and never delivers to a dead client —
every delivered packet is the relayed payload addressed to a live member of
the client list — but the pruning of dead weak references happens on a local
clone of the room only, so the registry state, including the room's stored
client list, is unchanged by the call. -/
theorem relay_dead_refs_skipped (mm : Matchmaker) (addr : Nat)
    (dest : Destination) (target : Option Nat) (data live : List Nat)
    (rid : Nat) (room : Room)
    (h1 : alookup mm.relay_clients addr = some rid)
    (h2 : alookup mm.rooms rid = some room) :
    (relay mm addr dest target data live).1 = mm ∧
    ∀ e ∈ (relay mm addr dest target data live).2,
      (e : Nat × Packet).2 = Packet.relayed addr data ∧
      ∃ cl, cl ∈ room.clients ∧ live.contains cl.connId = true ∧
        (e : Nat × Packet).1 = cl.connId := by
  refine ⟨relay_state_eq mm addr dest target data live, ?_⟩
  intro e he
  obtain ⟨cl, hcl, hlv, hne, htg, rfl⟩ := (relay_effects_mem h1 h2 e).1 he
  exact ⟨rfl, cl, hcl, hlv, rfl⟩

/-- C4 witness: the relay call on `deadMM` leaves the registry unchanged. -/
theorem relay_dead_refs_skipped_witness :
    (relay deadMM 11 ⟨1, 11⟩ none [7] [0, 1]).1 = deadMM :=
  (relay_dead_refs_skipped deadMM 11 ⟨1, 11⟩ none [7] [0, 1] 1
    ⟨⟨0, 10⟩, [⟨2, 12⟩], 1⟩ (by decide) (by decide)).1

/-! ## Claim C5: room id bounds and uniqueness -/

/-- C5: a successful allocation returns an id in `[0, MAX_ROOM_ID]` that no
live room holds, and in every reachable state the live rooms' ids are
pairwise distinct: the `rooms` keys are nodup, each room's `id` field equals
its key, and every key is at most `MAX_ROOM_ID`. -/
theorem room_ids_bounded_and_unique :
    (∀ (rooms : List (Nat × Room)) (rng : Nat → Nat) (id : Nat),
       (∀ i, rng i ≤ MAX_ROOM_ID) → find_free_room_id rooms rng = some id →
       id ≤ MAX_ROOM_ID ∧ alookup rooms id = none) ∧
    (∀ (strict : Bool) (w : World), ReachG strict w →
       keysNodup w.mm.rooms ∧
       ∀ p ∈ w.mm.rooms, (p : Nat × Room).2.id = p.1 ∧ p.1 ≤ MAX_ROOM_ID) := by
  refine ⟨fun rooms rng id hr h => find_free_room_id_sound rooms rng id hr h, ?_⟩
  intro strict w h
  have hinv := inv_of_reach h
  exact ⟨hinv.rooms_keys, fun p hp => ⟨hinv.room_id_eq p hp, hinv.room_id_le p hp⟩⟩

/-- C5 witness. -/
theorem room_ids_bounded_and_unique_witness :
    (3 ≤ MAX_ROOM_ID ∧ alookup ([] : List (Nat × Room)) 3 = none) ∧
    keysNodup exW3.mm.rooms := by
  refine ⟨room_ids_bounded_and_unique.1 [] (fun _ => 3) 3
    (fun i => (by decide : (3 : Nat) ≤ MAX_ROOM_ID)) (by decide), ?_⟩
  exact (room_ids_bounded_and_unique.2 false exW3 reach_exW3).1

/-! ## Claim C6: bounded allocation and exhaustion -/

/-- C6: room allocation consumes at most the fixed budget of 49 random draws
(the Rust loop `for _ in 1..50`), so its result depends only on the first 49
values the rng yields; and when every id in `[0, MAX_ROOM_ID]` is occupied,
a `Host` request deterministically replies with the no-free-rooms error and
leaves the registry unchanged, instead of hanging. -/
theorem host_exhaustion_bounded :
    (∀ (rooms : List (Nat × Room)) (rng rng' : Nat → Nat),
       (∀ i, i < 49 → rng i = rng' i) →
       find_free_room_id rooms rng = find_free_room_id rooms rng') ∧
    (∀ (mm : Matchmaker) (dest : Destination) (rng : Nat → Nat),
       (∀ i, rng i ≤ MAX_ROOM_ID) →
       (∀ id, id ≤ MAX_ROOM_ID → (alookup mm.rooms id).isSome = true) →
       host mm dest rng =
         (mm, [send_error dest "Could not find any more free rooms. Try again"])) := by
  constructor
  · intro rooms rng rng' hagree
    exact find_free_room_id_go_rng_congr rooms rng rng' 49 0
      (fun j hj1 hj2 => hagree j (by omega))
  · intro mm dest rng hr hfull
    have hnone : find_free_room_id mm.rooms rng = none :=
      find_free_room_id_go_exhausted mm.rooms rng hr hfull 49 0
    simp [host, hnone]

/-- C6 witness: with all 10000 room ids occupied a `Host` request fails with
the no-free-rooms error, and the allocation result is insensitive to rng
values from index 49 onward. -/
theorem host_exhaustion_bounded_witness :
    find_free_room_id (fullRooms 10000) (fun _ => 0) =
      find_free_room_id (fullRooms 10000) (fun i => if i < 49 then 0 else 7) ∧
    host ⟨fullRooms 10000, [], []⟩ ⟨0, 0⟩ (fun _ => 0) =
      (⟨fullRooms 10000, [], []⟩,
       [send_error ⟨0, 0⟩ "Could not find any more free rooms. Try again"]) := by
  constructor
  · refine host_exhaustion_bounded.1 (fullRooms 10000) _ _ ?_
    intro i hi
    simp [hi]
  · refine host_exhaustion_bounded.2 ⟨fullRooms 10000, [], []⟩ ⟨0, 0⟩ (fun _ => 0)
      (fun i => (by decide : (0 : Nat) ≤ MAX_ROOM_ID)) ?_
    intro id hid
    exact fullRooms_lookup_isSome 10000 id (Nat.lt_succ_of_le hid)

/-! ## Claim C7: GetHost exchange -/

/-- C7: processing `GetHost(R)` for an existing room sends exactly one
`ClientAddress(C)` packet to the host and exactly one `HostAddress(H)` to
the requester — these two packets and nothing else; for a missing room the
requester receives exactly the no-room-found error packet and nothing else
is sent. -/
theorem gethost_exactly_once (mm : Matchmaker) (dest : Destination) (rid : Nat) :
    (∀ room, alookup mm.rooms rid = some room →
       join mm dest rid =
         [(room.host.connId, Packet.clientAddress dest.peerAddr),
          (dest.connId, Packet.hostAddress room.host.peerAddr)]) ∧
    (alookup mm.rooms rid = none →
       join mm dest rid =
         [(dest.connId, Packet.error
            "No room found with the given ID. Check whether you spelled the ID correctly")]) := by
  constructor
  · intro room h
    simp [join, h, send_packet]
  · intro h
    simp [join, h, send_error, send_packet]

/-- C7 witness: joining room 1 of `relayMM` from a new connection, and
missing room 2. -/
theorem gethost_exactly_once_witness :
    join relayMM ⟨4, 14⟩ 1 =
      [(0, Packet.clientAddress 14), (4, Packet.hostAddress 10)] ∧
    join relayMM ⟨4, 14⟩ 2 =
      [(4, Packet.error
         "No room found with the given ID. Check whether you spelled the ID correctly")] := by
  have h := gethost_exactly_once relayMM ⟨4, 14⟩ 1
  have h2 := gethost_exactly_once relayMM ⟨4, 14⟩ 2
  exact ⟨h.1 ⟨⟨0, 10⟩, [⟨1, 11⟩, ⟨2, 12⟩, ⟨3, 13⟩], 1⟩ (by decide), h2.2 (by decide)⟩

/-! ## Claim C8: oversized payload guard -/

/-- C8 (spec-modelled): the payload-size guard is enforced on both paths —
encoding a payload exceeding the maximum yields the typed error
`TriedToSendPacketThatIsTooBig` (never a truncated or corrupted frame: an
in-bounds payload is framed intact), and an oversized incoming frame is
rejected with the typed protocol error `ReceivedPacketThatIsTooBig`. -/
theorem oversized_payload_rejected (maxSize : Nat) (payload frame : List Nat) :
    (maxSize < payload.length →
       encode_payload maxSize payload =
         Except.error (NetError.TriedToSendPacketThatIsTooBig maxSize payload.length)) ∧
    (payload.length ≤ maxSize →
       encode_payload maxSize payload = Except.ok payload) ∧
    (maxSize < frame.length →
       decode_payload maxSize frame = Except.error NetError.ReceivedPacketThatIsTooBig) := by
  refine ⟨fun h => ?_, fun h => ?_, fun h => ?_⟩
  · simp [encode_payload, h]
  · simp [encode_payload, Nat.not_lt.2 h]
  · simp [decode_payload, h]

/-- C8 witness. -/
theorem oversized_payload_rejected_witness :
    encode_payload 2 [1, 2, 3] =
      Except.error (NetError.TriedToSendPacketThatIsTooBig 2 3) ∧
    encode_payload 2 [1] = Except.ok [1] ∧
    decode_payload 2 [1, 2, 3] = Except.error NetError.ReceivedPacketThatIsTooBig := by
  have h := oversized_payload_rejected 2 [1, 2, 3] [1, 2, 3]
  have h2 := oversized_payload_rejected 2 [1] [1]
  exact ⟨h.1 (by decide), h2.2.1 (by decide), h.2.2 (by decide)⟩

/-! ## Claim C9: client-side send semantics -/

/-- C9 counterexample: when the token's slot exists but its channel is
closed, the send is not silently dropped — `Socket::send` pushes a
`Fatal("internal error")` event onto the global bus. -/
theorem socket_send_cex :
    (Socket.send (⟨0⟩ : Socket Nat) closedSys 5).2 =
      [BusEvent.fatal "internal error"] ∧
    [BusEvent.fatal "internal error"] ≠ ([] : List BusEvent) := by
  decide

/-- C9 (amended): `Socket::send` never blocks and never returns an error to
the caller — it either appends the packet to the token's outbound queue or
drops it.  The drop is silent when the token has no slot (or the slot was
already taken by `wait`); when the slot exists but the channel is closed,
the packet is dropped and a `Fatal("internal error")` event is pushed onto
the global bus, so that case is not silent. -/
theorem socket_send_behavior {T : Type} (sys : SocketSystemInner T)
    (s : Socket T) (data : T) :
    (alookup sys.socket_threads s.token = none →
       Socket.send s sys data = (sys, [])) ∧
    (alookup sys.socket_threads s.token = some none →
       Socket.send s sys data = (sys, [])) ∧
    (∀ slot : Slot T, alookup sys.socket_threads s.token = some (some slot) →
       slot.senderOpen = true →
       Socket.send s sys data =
         ({ socket_threads := mapInsert sys.socket_threads s.token
              (some { slot with
                        queue := slot.queue ++ [SendPacket.packet s.token data] }) },
          [])) ∧
    (∀ slot : Slot T, alookup sys.socket_threads s.token = some (some slot) →
       slot.senderOpen = false →
       Socket.send s sys data = (sys, [BusEvent.fatal "internal error"])) := by
  refine ⟨fun h => ?_, fun h => ?_, fun slot h ho => ?_, fun slot h ho => ?_⟩
  · simp [Socket.send, SocketSystemInner.send, h]
  · simp [Socket.send, SocketSystemInner.send, h]
  · simp [Socket.send, SocketSystemInner.send, h, ho]
  · simp [Socket.send, SocketSystemInner.send, h, ho]

/-- C9 witness: a send on the open slot enqueues; a send with an unknown
token is silently dropped. -/
theorem socket_send_behavior_witness :
    Socket.send (⟨0⟩ : Socket Nat) openSys 5 =
      (⟨[(0, some ⟨[SendPacket.packet 0 5], true⟩)]⟩, []) ∧
    Socket.send (⟨1⟩ : Socket Nat) openSys 5 = (openSys, []) := by
  have h := socket_send_behavior openSys (⟨0⟩ : Socket Nat) 5
  have h2 := socket_send_behavior openSys (⟨1⟩ : Socket Nat) 5
  constructor
  · exact h.2.2.1 ⟨[], true⟩ (by decide) rfl
  · exact h2.1 (by decide)

/-! ## Claim C10: host_rooms ids point to live rooms -/

/-- C10: in every sequentially reachable registry state, every room id
stored in `host_rooms` is a key of the `rooms` map (a `Host` inserts into
`rooms` before `host_rooms`, a disconnect removes from `host_rooms` before
`rooms`), hence the `unwrap` after `rooms.get_mut` in `add_relay` can never
panic: `add_relay` always returns a result. -/
theorem host_rooms_subset_rooms {strict : Bool} {w : World} (h : ReachG strict w) :
    (∀ p ∈ w.mm.host_rooms, (alookup w.mm.rooms (p : Nat × Nat).2).isSome = true) ∧
    (∀ (d : Destination) (host_addr? : Option Nat),
       (add_relay w.mm d host_addr?).isSome = true) := by
  have hinv := inv_of_reach h
  refine ⟨hinv.hostr_sub, ?_⟩
  intro d haddr
  cases hh : alookup w.mm.host_rooms (haddr.getD d.peerAddr) with
  | none => simp [add_relay, hh]
  | some rid =>
    have hsome := hinv.hostr_sub (haddr.getD d.peerAddr, rid) (alookup_mem hh)
    obtain ⟨room, hroom⟩ := Option.isSome_iff_exists.1 hsome
    simp [add_relay, hh, hroom]

/-- C10 witness. -/
theorem host_rooms_subset_rooms_witness :
    (alookup witW3.mm.rooms 1).isSome = true ∧
    (add_relay witW3.mm ⟨1, 11⟩ (some 10)).isSome = true := by
  have h := host_rooms_subset_rooms reach_witW3
  exact ⟨h.1 (10, 1) (by decide), h.2 ⟨1, 11⟩ (some 10)⟩

end NetCanv
